import Mathlib

/-!
Verification of the state-merge ("reducer") and routing design of the
langgraph-essentials lesson corpus.  The lesson scripts under src/ declare
state schemas, per-field reducers and node functions, and hand them to an
external graph-execution engine; the engine itself (round-based merging,
fan-out join barrier, interrupt pause/resume, snapshot history) is not part
of the repository, so those parts are modelled here from the specification
(sections 3, 4.1, 4.2, 4.3), while every reducer and node function is
translated directly from the lesson sources.
-/

namespace LangGraph

/-- Modelled from the spec, section 3 (the Record type lives in the external
framework): a Record is an ordered mapping from field name to value.  Each
lesson fixes its own value type, so the value type is a parameter. -/
abbrev Record (α : Type) : Type := List (String × α)

/-- Modelled from the spec, section 3: the partial Record a step returns,
holding only the fields it wishes to update. -/
abbrev Update (α : Type) : Type := List (String × α)

/-- Modelled from the spec, section 3: a per-field merge policy, either the
default "replace" (new overwrites old) or a declared binary reducer
combine(old, new). -/
inductive Policy (α : Type) where
  | replace : Policy α
  | reduce (combine : α → α → α) : Policy α

/-- Modelled from the spec, section 4.1: the configuration error the Merge
Engine signals when a field with no declared merge policy receives writes
from two or more concurrently-run steps in the same round. -/
inductive MergeError where
  | ambiguousConcurrentWrite (f : String) : MergeError
deriving DecidableEq

/-- First value bound to field `f` in an association list (a Record or a
partial Record). -/
def lookupField {α : Type} (f : String) : List (String × α) → Option α
  | [] => none
  | (g, v) :: r => if g = f then some v else lookupField f r

/-- The field names of a Record, in order. -/
def keys {α : Type} (r : Record α) : List String := r.map Prod.fst

/-- Modelled from the spec, section 4.1: the values the partial Records of
one execution round write to field `f`, in round order. -/
def writesTo {α : Type} (f : String) (us : List (Update α)) : List α :=
  us.filterMap (lookupField f)

/-- Modelled from the spec, section 4.1: merge one Record entry against the
round's partial Records.  A field no update touches is carried over; a
"replace" field takes its single write, and signals a configuration error
when two or more concurrently-run steps wrote it; a field with a declared
reducer folds the writes into the old value pairwise, left to right. -/
def mergeEntry {α : Type} (pol : String → Policy α) (us : List (Update α)) :
    String × α → Except MergeError (String × α)
  | (f, v) =>
    match pol f with
    | .replace =>
      match writesTo f us with
      | [] => .ok (f, v)
      | [w] => .ok (f, w)
      | _ :: _ :: _ => .error (.ambiguousConcurrentWrite f)
    | .reduce g => .ok (f, (writesTo f us).foldl g v)

/-- Modelled from the spec, section 4.1: the Merge Engine.  Given the old
Record and the partial Records produced in one execution round, produce the
next Record (or the round's configuration error). -/
def mergeRound {α : Type} (pol : String → Policy α) (us : List (Update α)) :
    Record α → Except MergeError (Record α)
  | [] => .ok []
  | e :: r =>
    match mergeEntry pol us e with
    | .error err => .error err
    | .ok e2 =>
      match mergeRound pol us r with
      | .error err => .error err
      | .ok r2 => .ok (e2 :: r2)

/-- The value the Merge Engine gives a field in the error-free case:
untouched fields keep the old value, a "replace" field takes its single
write, a declared reducer folds the writes into the old value. -/
def mergedVal {α : Type} (pol : String → Policy α) (us : List (Update α))
    (f : String) (v : α) : α :=
  match pol f with
  | .replace =>
    match writesTo f us with
    | [w] => w
    | _ => v
  | .reduce g => (writesTo f us).foldl g v

/-- Modelled from the spec, sections 4.3 and 5: the driver runs execution
rounds in order, waiting for every step of a round before merging (each
round's partial Records are handed to the Merge Engine together), and stops
at the first configuration error. -/
def runRounds {α : Type} (pol : String → Policy α) (init : Record α) :
    List (List (Update α)) → Except MergeError (Record α)
  | [] => .ok init
  | us :: rest =>
    match mergeRound pol us init with
    | .error e => .error e
    | .ok r2 => runRounds pol r2 rest

/-- The last element of `writes` when there is one, else `dflt`: the value
the last writer left behind. -/
def lastWriteOr {α : Type} (dflt : Option α) : List α → Option α
  | [] => dflt
  | w :: ws => lastWriteOr (some w) ws

/-- Concatenation of a list of lists, in order. -/
def catLists {α : Type} : List (List α) → List α
  | [] => []
  | x :: xs => x ++ catLists xs

/-- All values written to field `f` across the given rounds, in the order
the producing rounds completed. -/
def roundWrites {α : Type} (f : String) (rounds : List (List (Update α))) :
    List α :=
  catLists (rounds.map (writesTo f))

/-! Schemas, reducers and node functions of src/module-2/state-reducers.py. -/

/-- Schema StateWithoutReducer (src/module-2/state-reducers.py): a single
field `messages : list` with no declared reducer, so every field follows the
default "replace" policy. -/
def StateWithoutReducer : String → Policy (List String) := fun _ => .replace

/-- Schema StateWithReducer (src/module-2/state-reducers.py): field
`messages` is annotated with operator.add, list concatenation. -/
def StateWithReducer : String → Policy (List String) := fun f =>
  if f = "messages" then .reduce (· ++ ·) else .replace

/-- The schema of the spec's concrete "append" scenario (spec section 8):
the field `items` carries the "append" merge policy. -/
def ItemsState : String → Policy (List String) := fun f =>
  if f = "items" then .reduce (· ++ ·) else .replace

/-- Node node_without_reducer_1 (src/module-2/state-reducers.py): ignores the
state and returns the partial record writing Message 1. -/
def node_without_reducer_1 (_s : Record (List String)) : Update (List String) :=
  [("messages", ["Message 1"])]

/-- Node node_without_reducer_2 (src/module-2/state-reducers.py): writes
Message 2, overwriting Message 1 under the default policy. -/
def node_without_reducer_2 (_s : Record (List String)) : Update (List String) :=
  [("messages", ["Message 2"])]

/-- sum_reducer (src/module-2/state-reducers.py): combines numbers by
addition instead of replacing. -/
def sum_reducer (existing new : Int) : Int := existing + new

/-- Value type of the CounterState schema: `count` holds an int, `name`
holds a str. -/
inductive CVal where
  | int (n : Int) : CVal
  | str (s : String) : CVal
deriving DecidableEq

/-- sum_reducer lifted to CounterState values; in the source the reducer only
ever receives the int values of `count`, so the other cases are unreachable
and mirror the untyped fallthrough. -/
def sum_reducerC : CVal → CVal → CVal
  | .int a, .int b => .int (sum_reducer a b)
  | _, b => b

/-- Schema CounterState (src/module-2/state-reducers.py): `count` is
annotated with sum_reducer, `name` is a normal field with no reducer. -/
def CounterState : String → Policy CVal := fun f =>
  if f = "count" then .reduce sum_reducerC else .replace

/-! State and nodes of src/module-4/01_parallelization.py. -/

/-- Schema SimpleState (src/module-4/01_parallelization.py): a single field
`state : List[str]` without a reducer, so parallel writes collide. -/
def SimpleState : String → Policy (List String) := fun _ => .replace

/-- ReturnNodeValue (src/module-4/01_parallelization.py): a node that
ignores the state and writes its configured marker string into `state` (the
source spells the markers with an apostrophe, omitted here). -/
def ReturnNodeValue (v : String) (_s : Record (List String)) :
    Update (List String) :=
  [("state", [v])]

/-- Value type that a list or a scalar may inhabit, as the untyped
sorting_reducer receives them. -/
inductive PyVal (α : Type) where
  | scal (a : α) : PyVal α
  | lst (l : List α) : PyVal α

/-- The wrapping step of sorting_reducer: an input that is not a list is
wrapped in a singleton list. -/
def pyWrapList {α : Type} : PyVal α → List α
  | .scal a => [a]
  | .lst l => l

/-- sorting_reducer (src/module-4/01_parallelization.py): wraps each input
in a list when it is not one, then returns the ascending sort of their
concatenation (Python sorted with reverse=False; insertion sort has the same
observable behaviour as the stable library sort). -/
def sorting_reducer {α : Type} [LinearOrder α] (left right : PyVal α) :
    List α :=
  List.insertionSort (· ≤ ·) (pyWrapList left ++ pyWrapList right)

/-! State and nodes of src/module-4/03_map_reduce.py, example 1, together
with the dynamic fan-out driver of spec section 4.2. -/

/-- Value type of the BasicState schema: ints and lists of ints. -/
inductive BVal where
  | int (n : Int) : BVal
  | list (l : List Int) : BVal
deriving DecidableEq

/-- operator.add on BasicState values: list concatenation on lists, addition
on ints; mismatched operands raise in Python and are unreachable here. -/
def addB : BVal → BVal → BVal
  | .list a, .list b => .list (a ++ b)
  | .int a, .int b => .int (a + b)
  | _, b => b

/-- Schema BasicState (src/module-4/03_map_reduce.py): `squared` is
annotated with operator.add, the other fields have no reducer. -/
def BasicState : String → Policy BVal := fun f =>
  if f = "squared" then .reduce addB else .replace

/-- The initial BasicState record graph_1.invoke receives: the numbers to
square, with the other fields at their defaults. -/
def numbersInit (numbers : List Int) : Record BVal :=
  [("numbers", .list numbers), ("squared", .list []), ("sum_of_squares", .int 0)]

/-- map_numbers (src/module-4/03_map_reduce.py): the routing function reads
`numbers` and creates one Send("square_number", ...) per number; the list of
per-invocation inputs models the list of Send commands. -/
def map_numbers (r : Record BVal) : List Int :=
  match lookupField "numbers" r with
  | some (.list l) => l
  | _ => []

/-- square_number (src/module-4/03_map_reduce.py): one fan-out invocation;
receives one number and writes its square into `squared`. -/
def square_number (number : Int) : Update BVal :=
  [("squared", .list [number ^ 2])]

/-- Python sum over a list of ints. -/
def sumInts (l : List Int) : Int := l.foldl (· + ·) 0

/-- sum_squares (src/module-4/03_map_reduce.py): the convergence step; reads
the whole `squared` list and writes its sum. -/
def sum_squares (r : Record BVal) : Update BVal :=
  [("sum_of_squares", .int (match lookupField "squared" r with
      | some (.list l) => sumInts l
      | _ => 0))]

/-- An event of a map-reduce run: one fan-out branch invocation finishing,
or the convergence step being invoked. -/
inductive MREvent where
  | branch (n : Int) : MREvent
  | converge : MREvent
deriving DecidableEq

/-- Modelled from the spec, section 4.2 (the fan-out scheduler lives in the
external framework): the driver runs one square_number invocation per Send
in a single round — the join barrier hands all their partial records to the
Merge Engine together — and only then invokes the convergence step, once.
The returned events record the branch completions and the convergence
invocation in driver order. -/
def runMapReduce (numbers : List Int) :
    Except MergeError (Record BVal × List MREvent) :=
  let init := numbersInit numbers
  let sends := map_numbers init
  match mergeRound BasicState (sends.map square_number) init with
  | .error e => .error e
  | .ok afterJoin =>
    match mergeRound BasicState [sum_squares afterJoin] afterJoin with
    | .error e => .error e
    | .ok final => .ok (final, sends.map MREvent.branch ++ [MREvent.converge])

/-! State and steps of src/module-3/03_dynamic_breakpoints.py, together with
the interrupt-aware driver of spec sections 4.3, 6 and 7c. -/

/-- Schema State (src/module-3/03_dynamic_breakpoints.py): a single input
string. -/
structure DynState where
  input : String
deriving DecidableEq

/-- step_1 (src/module-3/03_dynamic_breakpoints.py): first processing step,
no interrupts; returns the state unchanged. -/
def step_1 (s : DynState) : DynState := s

/-- step_2 (src/module-3/03_dynamic_breakpoints.py): raises a NodeInterrupt
carrying an explanatory message when the input is longer than 5 characters,
and otherwise passes the state through. -/
def step_2 (s : DynState) : Except String DynState :=
  if s.input.length > 5 then
    .error ("Received input that is longer than 5 characters: " ++ s.input)
  else
    .ok s

/-- step_3 (src/module-3/03_dynamic_breakpoints.py): final processing step;
returns the state unchanged. -/
def step_3 (s : DynState) : DynState := s

/-- The step sequence of the dynamic-breakpoints graph: START, step_1,
step_2, step_3, END. -/
def dynSteps : List String := ["step_1", "step_2", "step_3"]

/-- Dispatch a step of the dynamic-breakpoints graph by name; only step_2
can signal a conditional interrupt. -/
def runStep (name : String) (s : DynState) : Except String DynState :=
  if name = "step_1" then .ok (step_1 s)
  else if name = "step_2" then step_2 s
  else .ok (step_3 s)

/-- Modelled from the spec, section 4.3: the outcome of driving a run — the
terminal Record, or a pause before the named step, carrying the Record as it
was before that step together with the interrupt message. -/
inductive RunResult where
  | finished (s : DynState) : RunResult
  | paused (s : DynState) (next : String) (msg : String) : RunResult
deriving DecidableEq

/-- Modelled from the spec, sections 4.3 and 7c (the driver lives in the
external framework): run the named steps in order; when a step signals a
conditional interrupt, pause before that step with the Record unchanged and
surface the message verbatim. -/
def runFromList : List String → DynState → RunResult
  | [], s => .finished s
  | n :: rest, s =>
    match runStep n s with
    | .error msg => .paused s n msg
    | .ok s2 => runFromList rest s2

/-- The suffix of a step list starting at the named step. -/
def dropUntilStep (n : String) : List String → List String
  | [] => []
  | m :: rest => if m = n then m :: rest else dropUntilStep n rest

/-- Modelled from the spec, section 4.3: resuming a paused run with no
Record edits re-attempts the paused step on the unchanged Record and
continues from there. -/
def resumeRun (s : DynState) (next : String) : RunResult :=
  runFromList (dropUntilStep next dynSteps) s

/-! Snapshot history and forking of src/module-3/04_time_travel.py, modelled
from spec sections 3 and 4.3. -/

/-- Modelled from the spec, section 3: a snapshot of a run, held in the
checkpoint history at its sequence index, pointing at the snapshot it was
produced from. -/
structure Snap (R : Type) where
  parent : Option Nat
  record : R
deriving DecidableEq

/-- Append a chain of snapshots to the history: the first new snapshot hangs
off `p`, and each later one off its predecessor in the chain. -/
def appendChain {R : Type} : List (Snap R) → Option Nat → List R → List (Snap R)
  | h, _, [] => h
  | h, p, r :: rs => appendChain (h ++ [⟨p, r⟩]) (some h.length) rs

/-- Modelled from the spec, section 4.3 (update_state followed by streaming,
as in run_fork_example and run_multiple_forks_example of
src/module-3/04_time_travel.py): resuming from snapshot `k` applies the
corrective input to its Record, appends the resulting snapshot as a child of
`k`, and appends one further snapshot per executed round; the existing
history is never rewritten.  An unknown snapshot reference resumes
nothing. -/
def resumeFrom {R : Type} (h : List (Snap R)) (k : Nat) (corr : R → R)
    (exec : R → List R) : List (Snap R) :=
  match h[k]? with
  | some s => appendChain h (some k) (corr s.record :: exec (corr s.record))
  | none => h

/-- A history is tree-shaped when every snapshot's parent sits strictly
earlier in the history. -/
def TreeShaped {R : Type} (h : List (Snap R)) : Prop :=
  ∀ (i : Nat) (e : Snap R), h[i]? = some e → ∀ p, e.parent = some p → p < i

/-- A two-snapshot history to fork from: the initial record at index 0 and
one executed step at index 1 (run_multiple_forks_example forks from the
checkpoint holding the original user input). -/
def demoHistory : List (Snap String) := [⟨none, "start"⟩, ⟨some 0, "first step"⟩]

/-- The history after resuming from snapshot 0 with corrective input
"fix A" and one further executed round. -/
def demoFork1 : List (Snap String) :=
  resumeFrom demoHistory 0 (fun _ => "fix A") (fun r => [r ++ " ran"])

/-- The history after then resuming from snapshot 0 a second time, with the
different corrective input "fix B". -/
def demoFork2 : List (Snap String) :=
  resumeFrom demoFork1 0 (fun _ => "fix B") (fun _ => [])

/-! State, nodes and routing of src/module-1/01_simple_graph.py. -/

/-- Schema State (src/module-1/01_simple_graph.py): a single field
`graph_state : str`, no reducers, so every node's write replaces. -/
def SimpleGraphState : String → Policy String := fun _ => .replace

/-- node_1 (src/module-1/01_simple_graph.py): appends " I am" to
graph_state. -/
def node_1 (s : Record String) : Update String :=
  [("graph_state", ((lookupField "graph_state" s).getD "") ++ " I am")]

/-- node_2 (src/module-1/01_simple_graph.py): appends " happy!". -/
def node_2 (s : Record String) : Update String :=
  [("graph_state", ((lookupField "graph_state" s).getD "") ++ " happy!")]

/-- node_3 (src/module-1/01_simple_graph.py): appends " sad!". -/
def node_3 (s : Record String) : Update String :=
  [("graph_state", ((lookupField "graph_state" s).getD "") ++ " sad!")]

/-- decide_mood (src/module-1/01_simple_graph.py): the conditional edge.  It
reads the state but ignores it, and routes on a draw of the host
random-number generator — random.random() yields a number in [0, 1), and the
node_2 branch is taken when the draw is below one half.  The draw is an
explicit argument here because it is an input the snapshot does not
contain. -/
def decide_mood (_s : Record String) (draw : ℚ) : String :=
  if draw < 1 / 2 then "node_2" else "node_3"

/-- The full run of the simple graph from an initial Record, at a given
routing draw: node_1, then the node decide_mood selects, each write merged
by the Merge Engine under the all-replace schema. -/
def runSimpleGraph (init : Record String) (draw : ℚ) :
    Except MergeError (Record String) :=
  match mergeRound SimpleGraphState [node_1 init] init with
  | .error e => .error e
  | .ok s1 =>
    mergeRound SimpleGraphState
      [if decide_mood s1 draw = "node_2" then node_2 s1 else node_3 s1] s1

/-- A replay of the simple graph from the same snapshot with the same input:
some legitimate draw of the host random-number generator produced this
outcome. -/
def SimpleReplay (init : Record String) (out : Except MergeError (Record String)) :
    Prop :=
  ∃ draw : ℚ, 0 ≤ draw ∧ draw < 1 ∧ runSimpleGraph init draw = out

/-! Lemmas about the Merge Engine. -/

theorem mergeEntry_ok {α : Type} (pol : String → Policy α) (us : List (Update α))
    (f : String) (v : α) (e : String × α)
    (h : mergeEntry pol us (f, v) = .ok e) : e = (f, mergedVal pol us f v) := by
  rcases hp : pol f with _ | g <;>
    rcases hw : writesTo f us with _ | ⟨w, _ | ⟨w2, t⟩⟩ <;>
      simp [mergeEntry, mergedVal, hp, hw] at h ⊢ <;> exact h.symm

theorem mergeEntry_two_writes {α : Type} (pol : String → Policy α)
    (us : List (Update α)) (f : String) (v : α)
    (hpol : pol f = .replace) (htwo : 2 ≤ (writesTo f us).length) :
    mergeEntry pol us (f, v) = .error (.ambiguousConcurrentWrite f) := by
  rcases hw : writesTo f us with _ | ⟨w, _ | ⟨w2, t⟩⟩ <;>
    rw [hw] at htwo <;> simp at htwo
  simp [mergeEntry, hpol, hw]

theorem mergeRound_keys {α : Type} (pol : String → Policy α)
    (us : List (Update α)) :
    ∀ (r r2 : Record α), mergeRound pol us r = .ok r2 → keys r2 = keys r := by
  intro r
  induction r with
  | nil =>
    intro r2 h
    simp [mergeRound] at h
    rw [← h]
  | cons e rest ih =>
    intro r2 h
    obtain ⟨f, v⟩ := e
    simp only [mergeRound] at h
    cases he : mergeEntry pol us (f, v) with
    | error err => simp [he] at h
    | ok e2 =>
      simp only [he] at h
      cases hr : mergeRound pol us rest with
      | error err => simp [hr] at h
      | ok rest2 =>
        simp only [hr] at h
        cases h
        have he2 := mergeEntry_ok pol us f v e2 he
        have h3 := ih rest2 hr
        simp only [keys, List.map_cons] at h3 ⊢
        simp [he2, h3]

theorem mergeRound_lookup {α : Type} (pol : String → Policy α)
    (us : List (Update α)) :
    ∀ (r r2 : Record α) (f : String) (v : α),
      mergeRound pol us r = .ok r2 → lookupField f r = some v →
      lookupField f r2 = some (mergedVal pol us f v) := by
  intro r
  induction r with
  | nil => intro r2 f v h hv; simp [lookupField] at hv
  | cons e rest ih =>
    intro r2 f v h hv
    obtain ⟨g, w⟩ := e
    simp only [mergeRound] at h
    cases he : mergeEntry pol us (g, w) with
    | error err => simp [he] at h
    | ok e2 =>
      simp only [he] at h
      cases hr : mergeRound pol us rest with
      | error err => simp [hr] at h
      | ok rest2 =>
        simp only [hr] at h
        cases h
        have he2 := mergeEntry_ok pol us g w e2 he
        by_cases hgf : g = f
        · subst hgf
          simp [lookupField] at hv
          subst hv
          simp [he2, lookupField]
        · simp [lookupField, hgf] at hv
          simp [he2, lookupField, hgf]
          exact ih rest2 f v hr hv

theorem lookupField_of_mem_keys {α : Type} (f : String) :
    ∀ (r : Record α), f ∈ keys r → ∃ v, lookupField f r = some v := by
  intro r
  induction r with
  | nil => intro h; simp [keys] at h
  | cons e rest ih =>
    intro h
    obtain ⟨g, w⟩ := e
    by_cases hgf : g = f
    · exact ⟨w, by simp [lookupField, hgf]⟩
    · have : f ∈ keys rest := by
        simp [keys] at h
        rcases h with h | h
        · exact absurd h.symm hgf
        · simpa [keys] using h
      obtain ⟨v, hv⟩ := ih this
      exact ⟨v, by simp [lookupField, hgf, hv]⟩

theorem mergeRound_error_of_concurrent {α : Type} (pol : String → Policy α)
    (us : List (Update α)) (f : String)
    (hpol : pol f = .replace) (htwo : 2 ≤ (writesTo f us).length) :
    ∀ (r : Record α), f ∈ keys r → ∃ e, mergeRound pol us r = .error e := by
  intro r
  induction r with
  | nil => intro h; simp [keys] at h
  | cons e rest ih =>
    intro h
    obtain ⟨g, w⟩ := e
    by_cases hgf : g = f
    · subst hgf
      refine ⟨.ambiguousConcurrentWrite g, ?_⟩
      simp [mergeRound, mergeEntry_two_writes pol us g w hpol htwo]
    · have hmem : f ∈ keys rest := by
        simp [keys] at h
        rcases h with h | h
        · exact absurd h.symm hgf
        · simpa [keys] using h
      simp only [mergeRound]
      cases he : mergeEntry pol us (g, w) with
      | error err => exact ⟨err, rfl⟩
      | ok e2 =>
        obtain ⟨err, herr⟩ := ih hmem
        exact ⟨err, by simp [herr]⟩

theorem writesTo_single {α : Type} (f : String) (u : Update α) :
    writesTo f [u] = (lookupField f u).toList := by
  cases h : lookupField f u <;> simp [writesTo, h]

theorem mergeRound_single_ok {α : Type} (pol : String → Policy α) (u : Update α) :
    ∀ (r : Record α), ∃ r2, mergeRound pol [u] r = .ok r2 := by
  intro r
  induction r with
  | nil => exact ⟨[], rfl⟩
  | cons e rest ih =>
    obtain ⟨f, v⟩ := e
    obtain ⟨rest2, hr⟩ := ih
    have hone : ∃ e2, mergeEntry pol [u] (f, v) = .ok e2 := by
      rcases hp : pol f with _ | g <;>
        cases hu : lookupField f u <;>
          simp [mergeEntry, hp, writesTo_single, hu]
    obtain ⟨e2, he⟩ := hone
    exact ⟨e2 :: rest2, by simp [mergeRound, he, hr]⟩

theorem catLists_append {β : Type} (a b : List (List β)) :
    catLists (a ++ b) = catLists a ++ catLists b := by
  induction a with
  | nil => simp [catLists]
  | cons x xs ih => simp [catLists, ih]

theorem foldl_append_cat {β : Type} (l : List (List β)) :
    ∀ v : List β, l.foldl (· ++ ·) v = v ++ catLists l := by
  induction l with
  | nil => intro v; simp [catLists]
  | cons x xs ih => intro v; simp [catLists, ih, List.append_assoc]

/-- C1: for every field whose merge policy is the default "replace" and
every sequence of sequential steps, the final Record's value for the field
is the value written by the last writer in round order (each write
overwrites the previous value), falling back to the initial value when no
step wrote the field. -/
theorem replace_field_last_write_wins {α : Type} (pol : String → Policy α)
    (f : String) (updates : List (Update α)) :
    ∀ (init final : Record α),
      pol f = .replace → f ∈ keys init →
      runRounds pol init (updates.map fun u => [u]) = .ok final →
      lookupField f final =
        lastWriteOr (lookupField f init) (updates.filterMap (lookupField f)) := by
  induction updates with
  | nil =>
    intro init final hpol hmem hrun
    simp [runRounds] at hrun
    rw [← hrun]
    simp [lastWriteOr]
  | cons u rest ih =>
    intro init final hpol hmem hrun
    simp only [List.map_cons] at hrun
    simp only [runRounds] at hrun
    obtain ⟨r2, h1⟩ := mergeRound_single_ok pol u init
    simp only [h1] at hrun
    obtain ⟨v, hv⟩ := lookupField_of_mem_keys f init hmem
    have h2 := mergeRound_lookup pol [u] init r2 f v h1 hv
    have hmem2 : f ∈ keys r2 := by
      rw [mergeRound_keys pol [u] init r2 h1]
      exact hmem
    have h3 := ih r2 final hpol hmem2 hrun
    rw [h3, h2]
    cases lu : lookupField f u with
    | none =>
      have hm : mergedVal pol [u] f v = v := by
        simp [mergedVal, hpol, writesTo_single, lu]
      rw [hm, hv]
      simp [List.filterMap_cons, lu]
    | some w =>
      have hm : mergedVal pol [u] f v = w := by
        simp [mergedVal, hpol, writesTo_single, lu]
      rw [hm]
      simp [List.filterMap_cons, lu, lastWriteOr]

/-- Witness for C1: the StateWithoutReducer demo of
src/module-2/state-reducers.py.  Starting from empty messages, the two
sequential nodes write Message 1 then Message 2, and the final value is the
last write, Message 2 — Message 1 is lost. -/
theorem replace_field_last_write_wins_witness :
    StateWithoutReducer "messages" = Policy.replace ∧
    "messages" ∈ keys [("messages", ([] : List String))] ∧
    runRounds StateWithoutReducer [("messages", ([] : List String))]
      ([node_without_reducer_1 [], node_without_reducer_2 []].map fun u => [u]) =
      .ok [("messages", ["Message 2"])] ∧
    lookupField "messages" [("messages", ["Message 2"])] =
      lastWriteOr (lookupField "messages" [("messages", ([] : List String))])
        ([node_without_reducer_1 [], node_without_reducer_2 []].filterMap
          (lookupField "messages")) :=
  ⟨rfl, by decide, rfl,
    replace_field_last_write_wins StateWithoutReducer "messages"
      [node_without_reducer_1 [], node_without_reducer_2 []]
      [("messages", [])] [("messages", ["Message 2"])] rfl (by decide) rfl⟩

/-- C2: for every field with the "append" merge policy, the final list is
the initial list followed by the concatenation of all written sublists in
the order their producing rounds completed (and, within one round, in the
order the round's partial Records are folded). -/
theorem append_field_concatenates {β : Type} (pol : String → Policy (List β))
    (f : String) (rounds : List (List (Update (List β)))) :
    ∀ (init final : Record (List β)) (v0 : List β),
      pol f = .reduce (· ++ ·) →
      lookupField f init = some v0 →
      runRounds pol init rounds = .ok final →
      lookupField f final = some (v0 ++ catLists (roundWrites f rounds)) := by
  induction rounds with
  | nil =>
    intro init final v0 hpol hv hrun
    simp [runRounds] at hrun
    rw [← hrun]
    simpa [roundWrites, catLists] using hv
  | cons us rest ih =>
    intro init final v0 hpol hv hrun
    simp only [runRounds] at hrun
    cases h1 : mergeRound pol us init with
    | error e => simp [h1] at hrun
    | ok r2 =>
      simp only [h1] at hrun
      have h2 := mergeRound_lookup pol us init r2 f v0 h1 hv
      have hm : mergedVal pol us f v0 = v0 ++ catLists (writesTo f us) := by
        simp [mergedVal, hpol]
        exact foldl_append_cat (writesTo f us) v0
      rw [hm] at h2
      have h3 := ih r2 final (v0 ++ catLists (writesTo f us)) hpol h2 hrun
      rw [h3]
      simp [roundWrites, catLists, catLists_append, List.append_assoc]

/-- Witness for C2: the spec's concrete scenario.  From an initial Record
with items = [] under the "append" policy, three sequential steps returning
singleton lists A, B, C leave items = [A, B, C]. -/
theorem append_field_concatenates_witness :
    ItemsState "items" = Policy.reduce (· ++ ·) ∧
    lookupField "items" [("items", ([] : List String))] = some [] ∧
    runRounds ItemsState [("items", ([] : List String))]
      [[[("items", ["A"])]], [[("items", ["B"])]], [[("items", ["C"])]]] =
      .ok [("items", ["A", "B", "C"])] ∧
    lookupField "items" [("items", ["A", "B", "C"])] =
      some ([] ++ catLists (roundWrites "items"
        [[[("items", ["A"])]], [[("items", ["B"])]], [[("items", ["C"])]]])) :=
  ⟨rfl, rfl, rfl,
    append_field_concatenates ItemsState "items"
      [[[("items", ["A"])]], [[("items", ["B"])]], [[("items", ["C"])]]]
      [("items", [])] [("items", ["A", "B", "C"])] [] rfl rfl rfl⟩

/-- C3: the spec's sum scenario.  From the initial Record with count = 0
under the sum_reducer policy of CounterState, a fan-out round whose two
branches contribute 5 and 3 merges to count = 8 after the join; the sum
reducer adds each contribution to the old value in turn. -/
theorem sum_reducer_fanout_scenario :
    runRounds CounterState [("count", CVal.int 0)]
      [[[("count", CVal.int 5)], [("count", CVal.int 3)]]] =
      .ok [("count", CVal.int 8)] ∧
    sum_reducer (sum_reducer 0 5) 3 = 8 :=
  ⟨rfl, rfl⟩

/-- C4: when two or more concurrently-run steps of one round write the same
field and that field has no declared merge policy (the default "replace"),
the Merge Engine signals a configuration error for the round instead of
silently letting one write overwrite the other. -/
theorem concurrent_replace_write_errors {α : Type} (pol : String → Policy α)
    (us : List (Update α)) (r : Record α) (f : String)
    (hmem : f ∈ keys r) (hpol : pol f = .replace)
    (htwo : 2 ≤ (writesTo f us).length) :
    ∃ e, mergeRound pol us r = .error e :=
  mergeRound_error_of_concurrent pol us f hpol htwo r hmem

/-- Witness for C4: the parallel-without-reducer example of
src/module-4/01_parallelization.py.  After node a, the fan-out round where
nodes b and c both write `state` under SimpleState (no reducer) errors. -/
theorem concurrent_replace_write_errors_witness :
    "state" ∈ keys [("state", ["Im A"])] ∧
    SimpleState "state" = Policy.replace ∧
    2 ≤ (writesTo "state" [ReturnNodeValue "Im B" [("state", ["Im A"])],
          ReturnNodeValue "Im C" [("state", ["Im A"])]]).length ∧
    ∃ e, mergeRound SimpleState
        [ReturnNodeValue "Im B" [("state", ["Im A"])],
         ReturnNodeValue "Im C" [("state", ["Im A"])]]
        [("state", ["Im A"])] = .error e :=
  ⟨by decide, rfl, by decide,
    concurrent_replace_write_errors SimpleState
      [ReturnNodeValue "Im B" [("state", ["Im A"])],
       ReturnNodeValue "Im C" [("state", ["Im A"])]]
      [("state", ["Im A"])] "state" (by decide) rfl (by decide)⟩

theorem lookupField_square_none (f : String) (hf : ¬ ("squared" = f)) (n : Int) :
    lookupField f (square_number n) = none := by
  simp [square_number, lookupField, hf]

theorem writesTo_map_square_none (f : String) (hf : ¬ ("squared" = f))
    (l : List Int) : writesTo f (l.map square_number) = [] := by
  induction l with
  | nil => rfl
  | cons n t ih =>
    simp only [List.map_cons, writesTo, List.filterMap_cons,
      lookupField_square_none f hf n]
    simpa [writesTo] using ih

theorem writesTo_map_square (l : List Int) :
    writesTo "squared" (l.map square_number) =
      l.map fun n => BVal.list [n ^ 2] := by
  induction l with
  | nil => rfl
  | cons n t ih =>
    simp only [List.map_cons, writesTo, List.filterMap_cons]
    have : lookupField "squared" (square_number n) = some (.list [n ^ 2]) := rfl
    rw [this]
    simp only [writesTo] at ih
    rw [ih]

theorem foldl_addB_squares (l : List Int) :
    ∀ acc : List Int,
      List.foldl addB (BVal.list acc) (l.map fun n => BVal.list [n ^ 2]) =
        BVal.list (acc ++ l.map fun n => n ^ 2) := by
  induction l with
  | nil => intro acc; simp
  | cons n t ih =>
    intro acc
    simp only [List.map_cons, List.foldl_cons, addB]
    rw [ih (acc ++ [n ^ 2])]
    simp

/-- The join record of the map-reduce run: merging the fan-out round of one
square_number invocation per number fills `squared` with all the squares at
once and leaves the other fields untouched. -/
theorem mergeRound_squares (numbers : List Int) :
    mergeRound BasicState (numbers.map square_number) (numbersInit numbers) =
      .ok [("numbers", .list numbers),
           ("squared", .list (numbers.map fun n => n ^ 2)),
           ("sum_of_squares", .int 0)] := by
  have hn : writesTo "numbers" (numbers.map square_number) = [] :=
    writesTo_map_square_none "numbers" (by decide) numbers
  have hs : writesTo "sum_of_squares" (numbers.map square_number) = [] :=
    writesTo_map_square_none "sum_of_squares" (by decide) numbers
  have hq := writesTo_map_square numbers
  simp [numbersInit, mergeRound, mergeEntry, BasicState, hn, hs, hq,
    foldl_addB_squares numbers []]

theorem count_converge_branches (l : List Int) :
    (l.map MREvent.branch).count MREvent.converge = 0 := by
  induction l with
  | nil => rfl
  | cons n t ih => simp [List.count_cons, ih]

/-- C5: for every fan-out over N numbers followed by the join, the
convergence step sum_squares is invoked exactly once per run, strictly after
all N branch invocations, and the Record it reads already contains all N
contributions — the join barrier never admits a partial set. -/
theorem fanout_join_converges_once (numbers : List Int)
    (final : Record BVal) (tr : List MREvent)
    (hrun : runMapReduce numbers = .ok (final, tr)) :
    tr.count MREvent.converge = 1 ∧
    tr = numbers.map MREvent.branch ++ [MREvent.converge] ∧
    ∃ afterJoin,
      mergeRound BasicState
          ((map_numbers (numbersInit numbers)).map square_number)
          (numbersInit numbers) = .ok afterJoin ∧
      lookupField "squared" afterJoin =
        some (.list (numbers.map fun n => n ^ 2)) := by
  have hmn : map_numbers (numbersInit numbers) = numbers := rfl
  have hsq := mergeRound_squares numbers
  simp only [runMapReduce, hmn, hsq] at hrun
  cases h2 : mergeRound BasicState
      [sum_squares [("numbers", .list numbers),
        ("squared", .list (numbers.map fun n => n ^ 2)),
        ("sum_of_squares", .int 0)]]
      [("numbers", .list numbers),
        ("squared", .list (numbers.map fun n => n ^ 2)),
        ("sum_of_squares", .int 0)] with
  | error e => rw [h2] at hrun; cases hrun
  | ok f2 =>
    rw [h2] at hrun
    cases hrun
    refine ⟨?_, rfl, ?_⟩
    · rw [List.count_append]
      simp [count_converge_branches]
    · rw [hmn]
      exact ⟨_, hsq, by simp [lookupField]⟩

/-- Witness for C5: the numbers example of src/module-4/03_map_reduce.py.
The run over 1..5 produces one convergence invocation as its last event,
and the join record holds all five squares when sum_squares reads it. -/
theorem fanout_join_converges_once_witness :
    runMapReduce [1, 2, 3, 4, 5] =
      .ok ([("numbers", BVal.list [1, 2, 3, 4, 5]),
            ("squared", BVal.list [1, 4, 9, 16, 25]),
            ("sum_of_squares", BVal.int 55)],
        [MREvent.branch 1, MREvent.branch 2, MREvent.branch 3,
          MREvent.branch 4, MREvent.branch 5, MREvent.converge]) ∧
    ([MREvent.branch 1, MREvent.branch 2, MREvent.branch 3,
        MREvent.branch 4, MREvent.branch 5,
        MREvent.converge].count MREvent.converge = 1 ∧
      [MREvent.branch 1, MREvent.branch 2, MREvent.branch 3,
        MREvent.branch 4, MREvent.branch 5, MREvent.converge] =
        ([1, 2, 3, 4, 5] : List Int).map MREvent.branch ++ [MREvent.converge] ∧
      ∃ afterJoin,
        mergeRound BasicState
            ((map_numbers (numbersInit [1, 2, 3, 4, 5])).map square_number)
            (numbersInit [1, 2, 3, 4, 5]) = .ok afterJoin ∧
        lookupField "squared" afterJoin =
          some (.list (([1, 2, 3, 4, 5] : List Int).map fun n => n ^ 2))) :=
  ⟨rfl,
    fanout_join_converges_once [1, 2, 3, 4, 5]
      [("numbers", BVal.list [1, 2, 3, 4, 5]),
        ("squared", BVal.list [1, 4, 9, 16, 25]),
        ("sum_of_squares", BVal.int 55)]
      [MREvent.branch 1, MREvent.branch 2, MREvent.branch 3,
        MREvent.branch 4, MREvent.branch 5, MREvent.converge] rfl⟩

theorem appendChain_extends {R : Type} (rs : List R) :
    ∀ (h : List (Snap R)) (p : Option Nat), ∃ t, h ++ t = appendChain h p rs := by
  induction rs with
  | nil => intro h p; exact ⟨[], by simp [appendChain]⟩
  | cons r rest ih =>
    intro h p
    obtain ⟨t, ht⟩ := ih (h ++ [⟨p, r⟩]) (some h.length)
    exact ⟨⟨p, r⟩ :: t, by simpa [appendChain, List.append_assoc] using ht⟩

theorem appendChain_length {R : Type} (rs : List R) :
    ∀ (h : List (Snap R)) (p : Option Nat),
      (appendChain h p rs).length = h.length + rs.length := by
  induction rs with
  | nil => intro h p; simp [appendChain]
  | cons r rest ih =>
    intro h p
    simp [appendChain, ih]
    omega

theorem getElem?_append_lt {γ : Type} (l1 l2 : List γ) (i : Nat)
    (hi : i < l1.length) : (l1 ++ l2)[i]? = l1[i]? := by
  rw [List.getElem?_append]
  exact if_pos hi

theorem appendChain_getElem_lt {R : Type} (rs : List R) (h : List (Snap R))
    (p : Option Nat) (i : Nat) (hi : i < h.length) :
    (appendChain h p rs)[i]? = h[i]? := by
  obtain ⟨t, ht⟩ := appendChain_extends rs h p
  rw [← ht]
  exact getElem?_append_lt h t i hi

theorem appendChain_getElem_first {R : Type} (h : List (Snap R))
    (p : Option Nat) (r : R) (rs : List R) :
    (appendChain h p (r :: rs))[h.length]? = some ⟨p, r⟩ := by
  have hlt : h.length < (h ++ [(⟨p, r⟩ : Snap R)]).length := by simp
  calc (appendChain h p (r :: rs))[h.length]?
      = (appendChain (h ++ [⟨p, r⟩]) (some h.length) rs)[h.length]? := rfl
    _ = (h ++ [(⟨p, r⟩ : Snap R)])[h.length]? :=
        appendChain_getElem_lt rs (h ++ [⟨p, r⟩]) (some h.length) h.length hlt
    _ = some ⟨p, r⟩ := by simp

theorem treeShaped_concat {R : Type} (h : List (Snap R)) (e : Snap R)
    (hts : TreeShaped h) (he : ∀ q, e.parent = some q → q < h.length) :
    TreeShaped (h ++ [e]) := by
  intro i x hx p hp
  by_cases hi : i < h.length
  · rw [getElem?_append_lt h [e] i hi] at hx
    exact hts i x hx p hp
  · obtain ⟨hlt, _⟩ := List.getElem?_eq_some.1 hx
    simp at hlt
    have hieq : i = h.length := by omega
    subst hieq
    have : (h ++ [e])[h.length]? = some e := by simp
    rw [this] at hx
    cases hx
    exact lt_of_lt_of_le (he p hp) (le_refl h.length)

theorem treeShaped_appendChain {R : Type} (rs : List R) :
    ∀ (h : List (Snap R)) (p : Option Nat),
      TreeShaped h → (∀ q, p = some q → q < h.length) →
      TreeShaped (appendChain h p rs) := by
  induction rs with
  | nil => intro h p hts _; exact hts
  | cons r rest ih =>
    intro h p hts hp
    show TreeShaped (appendChain (h ++ [⟨p, r⟩]) (some h.length) rest)
    apply ih
    · exact treeShaped_concat h ⟨p, r⟩ hts hp
    · intro q hq
      cases hq
      simp

theorem resumeFrom_eq_of_get {R : Type} (h : List (Snap R)) (k : Nat)
    (s : Snap R) (c : R → R) (x : R → List R) (hk : h[k]? = some s) :
    resumeFrom h k c x = appendChain h (some k) (c s.record :: x (c s.record)) := by
  simp [resumeFrom, hk]

/-- C7: resuming from a (possibly non-latest) snapshot k appends a new
branch to the snapshot history without deleting or overwriting the original
branch.  Forking from snapshot k twice, with two different corrective
inputs, leaves both fork heads in the history — each a child of k holding
its own corrective record — while every original snapshot is still
reachable at its old index, and a tree-shaped history stays tree-shaped:
the history is append-only. -/
theorem fork_history_append_only {R : Type} (h : List (Snap R)) (k : Nat)
    (s : Snap R) (c1 c2 : R → R) (x1 x2 : R → List R)
    (hk : h[k]? = some s) :
    (∃ t, h ++ t = resumeFrom h k c1 x1) ∧
    (∃ t, resumeFrom h k c1 x1 ++ t =
        resumeFrom (resumeFrom h k c1 x1) k c2 x2) ∧
    (resumeFrom (resumeFrom h k c1 x1) k c2 x2)[h.length]? =
      some ⟨some k, c1 s.record⟩ ∧
    (resumeFrom (resumeFrom h k c1 x1) k c2 x2)[(resumeFrom h k c1 x1).length]? =
      some ⟨some k, c2 s.record⟩ ∧
    (∀ j, j < h.length →
      (resumeFrom (resumeFrom h k c1 x1) k c2 x2)[j]? = h[j]?) ∧
    (TreeShaped h → TreeShaped (resumeFrom (resumeFrom h k c1 x1) k c2 x2)) := by
  have hklt : k < h.length := by
    obtain ⟨hlt, _⟩ := List.getElem?_eq_some.1 hk
    exact hlt
  have e1 : resumeFrom h k c1 x1 =
      appendChain h (some k) (c1 s.record :: x1 (c1 s.record)) :=
    resumeFrom_eq_of_get h k s c1 x1 hk
  have hlen1 : h.length < (resumeFrom h k c1 x1).length := by
    rw [e1, appendChain_length]
    simp
  have hk1 : (resumeFrom h k c1 x1)[k]? = some s := by
    rw [e1, appendChain_getElem_lt _ _ _ k hklt]
    exact hk
  have e2 : resumeFrom (resumeFrom h k c1 x1) k c2 x2 =
      appendChain (resumeFrom h k c1 x1) (some k)
        (c2 s.record :: x2 (c2 s.record)) :=
    resumeFrom_eq_of_get (resumeFrom h k c1 x1) k s c2 x2 hk1
  refine ⟨?_, ?_, ?_, ?_, ?_, ?_⟩
  · rw [e1]
    exact appendChain_extends _ h _
  · rw [e2]
    exact appendChain_extends _ _ _
  · rw [e2, appendChain_getElem_lt _ _ _ h.length hlen1, e1]
    exact appendChain_getElem_first h _ _ _
  · rw [e2]
    exact appendChain_getElem_first _ _ _ _
  · intro j hj
    rw [e2, appendChain_getElem_lt _ _ _ j (lt_trans hj hlen1), e1,
      appendChain_getElem_lt _ _ _ j hj]
  · intro hts
    rw [e2]
    apply treeShaped_appendChain
    · rw [e1]
      apply treeShaped_appendChain _ _ _ hts
      intro q hq
      cases hq
      exact hklt
    · intro q hq
      cases hq
      exact lt_trans hklt hlen1

/-- Witness for C7: forking twice from snapshot 0 of a two-snapshot history
with corrective inputs "fix A" and "fix B", as run_multiple_forks_example of
src/module-3/04_time_travel.py does.  Both forks are present, both parented
at snapshot 0, and the original history is untouched. -/
theorem fork_history_append_only_witness :
    demoHistory[0]? = some (⟨none, "start"⟩ : Snap String) ∧
    ((∃ t, demoHistory ++ t = demoFork1) ∧
      (∃ t, demoFork1 ++ t = demoFork2) ∧
      demoFork2[demoHistory.length]? = some ⟨some 0, "fix A"⟩ ∧
      demoFork2[demoFork1.length]? = some ⟨some 0, "fix B"⟩ ∧
      (∀ j, j < demoHistory.length → demoFork2[j]? = demoHistory[j]?) ∧
      (TreeShaped demoHistory → TreeShaped demoFork2)) :=
  ⟨rfl,
    fork_history_append_only demoHistory 0 ⟨none, "start"⟩
      (fun _ => "fix A") (fun _ => "fix B") (fun r => [r ++ " ran"])
      (fun _ => []) rfl⟩

theorem runFromList_paused (l : List String) :
    ∀ (s rec : DynState) (n msg : String),
      runFromList l s = .paused rec n msg →
      runStep n rec = .error msg ∧ n ∈ l := by
  induction l with
  | nil =>
    intro s rec n msg h
    simp only [runFromList] at h
    cases h
  | cons m rest ih =>
    intro s rec n msg h
    simp only [runFromList] at h
    cases hs : runStep m s with
    | error msg2 =>
      rw [hs] at h
      cases h
      exact ⟨hs, List.mem_cons_self m rest⟩
    | ok s2 =>
      rw [hs] at h
      obtain ⟨h1, h2⟩ := ih s2 rec n msg h
      exact ⟨h1, List.mem_cons_of_mem m h2⟩

theorem dropUntilStep_mem (n : String) (hmem : n ∈ dynSteps) :
    ∃ tail, dropUntilStep n dynSteps = n :: tail := by
  fin_cases hmem <;> exact ⟨_, rfl⟩

/-- C6: when a step signals a conditional interrupt carrying a message, the
driver pauses before executing that step (the paused Record is the Record
as it was before the step ran), and resuming the paused run without editing
the Record re-attempts the same step and raises the same interrupt again,
because the triggering condition on the Record is unchanged. -/
theorem interrupt_resume_reraises (s0 rec : DynState) (nxt msg : String)
    (hrun : runFromList dynSteps s0 = .paused rec nxt msg) :
    resumeRun rec nxt = .paused rec nxt msg := by
  obtain ⟨hstep, hmem⟩ := runFromList_paused dynSteps s0 rec nxt msg hrun
  obtain ⟨tail, htail⟩ := dropUntilStep_mem nxt hmem
  simp only [resumeRun, htail, runFromList, hstep]

/-- Witness for C6: the basic dynamic interrupt example of
src/module-3/03_dynamic_breakpoints.py.  On the 11-character input
"hello world", step_2 interrupts with its explanatory message, the driver
pauses before step_2 with the Record unchanged, and resuming without edits
raises the very same interrupt again. -/
theorem interrupt_resume_reraises_witness :
    runFromList dynSteps ⟨"hello world"⟩ =
      .paused ⟨"hello world"⟩ "step_2"
        "Received input that is longer than 5 characters: hello world" ∧
    resumeRun ⟨"hello world"⟩ "step_2" =
      .paused ⟨"hello world"⟩ "step_2"
        "Received input that is longer than 5 characters: hello world" :=
  ⟨rfl,
    interrupt_resume_reraises ⟨"hello world"⟩ ⟨"hello world"⟩ "step_2"
      "Received input that is longer than 5 characters: hello world" rfl⟩

/-- C9: in every execution round, a Record field that no partial update of
the round touches is carried over into the next Record unchanged. -/
theorem untouched_fields_carry_over {α : Type} (pol : String → Policy α)
    (us : List (Update α)) (r r2 : Record α) (f : String) (v : α)
    (hrun : mergeRound pol us r = .ok r2)
    (hfree : writesTo f us = [])
    (hv : lookupField f r = some v) :
    lookupField f r2 = some v := by
  have h := mergeRound_lookup pol us r r2 f v hrun hv
  have hm : mergedVal pol us f v = v := by
    cases hp : pol f <;> simp [mergedVal, hp, hfree]
  rw [hm] at h
  exact h

/-- Witness for C9: the CounterState demo of src/module-2/state-reducers.py.
The round where add5 writes count leaves the untouched `name` field at
MyCounter. -/
theorem untouched_fields_carry_over_witness :
    mergeRound CounterState [[("count", CVal.int 5)]]
      [("count", CVal.int 10), ("name", CVal.str "MyCounter")] =
      .ok [("count", CVal.int 15), ("name", CVal.str "MyCounter")] ∧
    writesTo "name" [[("count", CVal.int 5)]] = ([] : List CVal) ∧
    lookupField "name" [("count", CVal.int 10), ("name", CVal.str "MyCounter")] =
      some (CVal.str "MyCounter") ∧
    lookupField "name" [("count", CVal.int 15), ("name", CVal.str "MyCounter")] =
      some (CVal.str "MyCounter") :=
  ⟨rfl, rfl, rfl,
    untouched_fields_carry_over CounterState [[("count", CVal.int 5)]]
      [("count", CVal.int 10), ("name", CVal.str "MyCounter")]
      [("count", CVal.int 15), ("name", CVal.str "MyCounter")]
      "name" (CVal.str "MyCounter") rfl rfl rfl⟩

theorem runSimpleGraph_eval (g : String) (draw : ℚ) :
    runSimpleGraph [("graph_state", g)] draw =
      .ok [("graph_state", g ++ " I am" ++
        (if draw < 1 / 2 then " happy!" else " sad!"))] := by
  have h1 : mergeRound SimpleGraphState [node_1 [("graph_state", g)]]
      [("graph_state", g)] = .ok [("graph_state", g ++ " I am")] := by
    simp [mergeRound, mergeEntry, SimpleGraphState, writesTo, node_1, lookupField]
  unfold runSimpleGraph
  simp only [h1]
  by_cases hd : draw < 1 / 2
  · rw [if_pos hd]
    have hm : decide_mood [("graph_state", g ++ " I am")] draw = "node_2" := by
      unfold decide_mood
      rw [if_pos hd]
    rw [hm]
    simp [mergeRound, mergeEntry, SimpleGraphState, writesTo, node_2, lookupField]
  · rw [if_neg hd]
    have hm : decide_mood [("graph_state", g ++ " I am")] draw = "node_3" := by
      unfold decide_mood
      rw [if_neg hd]
    rw [hm]
    simp [mergeRound, mergeEntry, SimpleGraphState, writesTo, node_3, lookupField]

/-- Counterexample to C8 as stated: two replays of the simple graph from the
same snapshot with the same initial Record are both legitimate runs of the
code, yet they select different next steps and produce different merged
Records, because the routing function decide_mood consults the host
random-number generator rather than the Record — at draw 0 it selects
node_2 (happy), at draw 3/4 it selects node_3 (sad). -/
theorem replay_same_input_differs :
    SimpleReplay [("graph_state", "Hi, this is Lance.")]
      (.ok [("graph_state", "Hi, this is Lance. I am happy!")]) ∧
    SimpleReplay [("graph_state", "Hi, this is Lance.")]
      (.ok [("graph_state", "Hi, this is Lance. I am sad!")]) ∧
    (Except.ok [("graph_state", "Hi, this is Lance. I am happy!")] :
        Except MergeError (Record String)) ≠
      .ok [("graph_state", "Hi, this is Lance. I am sad!")] ∧
    decide_mood [("graph_state", "Hi, this is Lance. I am")] 0 ≠
      decide_mood [("graph_state", "Hi, this is Lance. I am")] (3 / 4) := by
  refine ⟨⟨0, by norm_num, by norm_num, ?_⟩,
    ⟨3 / 4, by norm_num, by norm_num, ?_⟩, by simp, ?_⟩
  · rw [runSimpleGraph_eval "Hi, this is Lance." 0,
      if_pos (show (0 : ℚ) < 1 / 2 by norm_num)]
    rfl
  · rw [runSimpleGraph_eval "Hi, this is Lance." (3 / 4),
      if_neg (show ¬ ((3 / 4 : ℚ) < 1 / 2) by norm_num)]
    rfl
  · have h1 : decide_mood [("graph_state", "Hi, this is Lance. I am")] 0 =
        "node_2" := by
      unfold decide_mood
      rw [if_pos (show (0 : ℚ) < 1 / 2 by norm_num)]
    have h2 : decide_mood [("graph_state", "Hi, this is Lance. I am")] (3 / 4) =
        "node_3" := by
      unfold decide_mood
      rw [if_neg (show ¬ ((3 / 4 : ℚ) < 1 / 2) by norm_num)]
    rw [h1, h2]
    simp

/-- C8 (amended): re-running the simple graph from a snapshot with the same
input is deterministic with respect to the Merge Engine and the routing
logic once the routing draw of the host random-number generator — an
externally-supplied value, like a language model's output — is classed with
the excluded external collaborators: two replays whose external draws make
decide_mood select the same next step produce the same merged Record. -/
theorem replay_deterministic_given_draw (init : Record String) (d1 d2 : ℚ)
    (hroute : decide_mood [] d1 = decide_mood [] d2) :
    runSimpleGraph init d1 = runSimpleGraph init d2 := by
  unfold runSimpleGraph
  cases h1 : mergeRound SimpleGraphState [node_1 init] init with
  | error e => rfl
  | ok s1 =>
    have hd : decide_mood s1 d1 = decide_mood s1 d2 := hroute
    dsimp only
    rw [hd]

/-- Witness for the amended C8: draws 0 and 1/4 both select node_2, and the
two replays from the same snapshot produce the same merged Record. -/
theorem replay_deterministic_given_draw_witness :
    decide_mood [] (0 : ℚ) = decide_mood [] (1 / 4) ∧
    runSimpleGraph [("graph_state", "Hi, this is Lance.")] 0 =
      runSimpleGraph [("graph_state", "Hi, this is Lance.")] (1 / 4) := by
  have h : decide_mood [] (0 : ℚ) = decide_mood [] ((1 : ℚ) / 4) := by
    unfold decide_mood
    rw [if_pos (show (0 : ℚ) < 1 / 2 by norm_num),
      if_pos (show ((1 : ℚ) / 4) < 1 / 2 by norm_num)]
  exact ⟨h, replay_deterministic_given_draw
    [("graph_state", "Hi, this is Lance.")] 0 (1 / 4) h⟩

/-- C10: sorting_reducer is commutative, and its result is the
ascending-sorted list of all elements of both inputs (each input wrapped in
a singleton list when it is not a list): it is sorted and a permutation of
the concatenation of the wrapped inputs.  The merged field value after a
fan-out is therefore independent of the order in which two branches
complete. -/
theorem sorting_reducer_commutative {α : Type} [LinearOrder α]
    (left right : PyVal α) :
    sorting_reducer left right = sorting_reducer right left ∧
    List.Sorted (· ≤ ·) (sorting_reducer left right) ∧
    List.Perm (sorting_reducer left right)
      (pyWrapList left ++ pyWrapList right) := by
  have hs1 : List.Sorted (· ≤ ·) (sorting_reducer left right) :=
    List.sorted_insertionSort _ _
  have hs2 : List.Sorted (· ≤ ·) (sorting_reducer right left) :=
    List.sorted_insertionSort _ _
  have hp1 : List.Perm (sorting_reducer left right)
      (pyWrapList left ++ pyWrapList right) :=
    List.perm_insertionSort _ _
  have hp2 : List.Perm (sorting_reducer right left)
      (pyWrapList right ++ pyWrapList left) :=
    List.perm_insertionSort _ _
  refine ⟨?_, hs1, hp1⟩
  refine List.eq_of_perm_of_sorted ?_ hs1 hs2
  exact hp1.trans (List.perm_append_comm.trans hp2.symm)

end LangGraph
